import Mathlib

/-!
# Verification of the cell-sentence reconstruction pipeline

This development embeds the numerical procedures of the repository's
`2_Preprocessing_and_Cell2Sentence.ipynb` notebook and of the
cell-sentence reconstruction contract described in the specification,
and proves the behavioural properties claimed for them.

The notebook's own code (the log-base change `adata.X = adata.X / np.log(10)`
and the clamp `adata.X[adata.X < 0] = 0.0`) is translated directly.
The reconstruction function `reconstruct_expression_from_cell_sentence` and
the OLS fitting step are imported by the notebook from the external
`cell2sentence` library, whose source is not part of this repository; they
are modelled from the specification's contract (spec section 4.1 and the
fitting-step description), as noted in their doc comments.
-/

/- ## Preprocessing steps (from the notebook source) -/

/-- The log-base change applied entrywise to the expression matrix,
from the notebook cell `adata.X = adata.X / np.log(10)`. -/
noncomputable def baseChange (x : ℝ) : ℝ := x / Real.log 10

/-- The log-base change applied to a whole matrix (rows = cells, columns = genes),
from the notebook cell `adata.X = adata.X / np.log(10)`. -/
noncomputable def baseChangeMatrix (M : List (List ℝ)) : List (List ℝ) :=
  M.map (List.map baseChange)

/-- Entrywise clamp of negative values to zero, from the notebook cell
`adata.X[adata.X < 0] = 0.0`. -/
noncomputable def clampNeg (x : ℝ) : ℝ := if x < 0 then 0 else x

/-- The clamp applied to a whole matrix, from the notebook cell
`if issparse(adata.X): adata.X.data[adata.X.data < 0] = 0.0
else: adata.X[adata.X < 0] = 0.0`. -/
noncomputable def clampMatrix (M : List (List ℝ)) : List (List ℝ) :=
  M.map (List.map clampNeg)

/- ## Cell-sentence reconstruction (modelled from the spec) -/

/-- Modelled from the spec: splitting a delimited string into tokens.
The reconstruction procedure's source (`cell2sentence.utils.
reconstruct_expression_from_cell_sentence`) is not in this repository; the
spec describes its input as "cell sentence string, delimiter" holding a
"space-delimited ordered gene list".  The delimiter is modelled as a single
character (the notebook always passes `" "`).  Auxiliary recursion carrying
the characters of the current token in reverse. -/
def splitOnCharAux (delim : Char) : List Char → List Char → List String
  | [], acc => [String.mk acc.reverse]
  | c :: cs, acc =>
    if c = delim then String.mk acc.reverse :: splitOnCharAux delim cs []
    else splitOnCharAux delim cs (c :: acc)

/-- Modelled from the spec: split a string on a delimiter character, as
Python's `str.split(delim)` does for a one-character delimiter. -/
def splitOnChar (delim : Char) (s : String) : List String :=
  splitOnCharAux delim s.data []

/-- Modelled from the spec: the ordered gene list denoted by a cell sentence
string.  A cell sentence is a "space-delimited ordered gene list"; the empty
string denotes the empty gene list (spec testable property: "Empty cell
sentence yields an all-zero reconstruction vector"). -/
def sentenceGenes (cell_sentence_str : String) (delimiter : Char) : List String :=
  if cell_sentence_str = "" then [] else splitOnChar delimiter cell_sentence_str

/-- Modelled from the spec: the 1-indexed position (rank) of the first
occurrence of a gene in the ordered gene list of a sentence, `none` when the
gene does not appear. -/
def rankOf : List String → String → Option ℕ
  | [], _ => none
  | x :: xs, g => if x = g then some 1 else (rankOf xs g).map (· + 1)

/-- Modelled from the spec: the expression value the reconstruction assigns
to one gene.  "For each gene appearing at position r (1-indexed) in the
sentence, compute `expression = intercept + slope * ln(r)`; clamp negative
results to zero.  Genes absent from the sentence receive expression 0." -/
noncomputable def geneValue (genes : List String) (slope intercept : ℝ)
    (g : String) : ℝ :=
  match rankOf genes g with
  | some r => max 0 (intercept + slope * Real.log r)
  | none => 0

/-- Modelled from the spec: `reconstruct_expression_from_cell_sentence`,
whose source lives in the external `cell2sentence` library.  "Given a fitted
(slope, intercept) pair, a fixed gene vocabulary (ordered list), and a cell
sentence (space-delimited ordered gene list), produce a dense expression
vector of length |vocabulary|", "a vector indexed in vocabulary order";
"No error is raised for genes in the sentence absent from the vocabulary"
(such genes simply have no slot in the output). -/
noncomputable def reconstruct_expression_from_cell_sentence
    (cell_sentence_str : String) (delimiter : Char) (vocab_list : List String)
    (slope intercept : ℝ) : List ℝ :=
  vocab_list.map (geneValue (sentenceGenes cell_sentence_str delimiter) slope intercept)

/- ## Basic lemmas about the reconstruction -/

lemma length_reconstruct (s : String) (d : Char) (vocab : List String)
    (slope intercept : ℝ) :
    (reconstruct_expression_from_cell_sentence s d vocab slope intercept).length
      = vocab.length := by
  simp [reconstruct_expression_from_cell_sentence]

lemma rankOf_eq_none_iff (l : List String) (g : String) :
    rankOf l g = none ↔ g ∉ l := by
  induction l with
  | nil => simp [rankOf]
  | cons x xs ih =>
    by_cases hx : x = g
    · simp [rankOf, hx]
    · simp [rankOf, hx, Option.map_eq_none, ih, Ne.symm hx]

lemma rankOf_bounds (l : List String) (g : String) (r : ℕ)
    (h : rankOf l g = some r) : 1 ≤ r ∧ r ≤ l.length := by
  induction l generalizing r with
  | nil => simp [rankOf] at h
  | cons x xs ih =>
    simp only [List.length_cons]
    by_cases hx : x = g
    · simp [rankOf, hx] at h
      omega
    · simp [rankOf, hx] at h
      obtain ⟨r', hr', hr'eq⟩ := h
      have := ih r' hr'
      omega

lemma rankOf_getD_nodup (l : List String) (hnd : l.Nodup) (j : ℕ)
    (hj : j < l.length) : rankOf l (l.getD j "") = some (j + 1) := by
  induction l generalizing j with
  | nil => simp at hj
  | cons x xs ih =>
    cases j with
    | zero => simp [rankOf]
    | succ j =>
      have hx : x ∉ xs := (List.nodup_cons.mp hnd).1
      have hnd' : xs.Nodup := (List.nodup_cons.mp hnd).2
      have hj' : j < xs.length := by simpa using hj
      have hmem : xs.getD j "" ∈ xs := by
        rw [List.getD_eq_getElem _ _ hj']
        exact List.getElem_mem hj'
      have hne : x ≠ xs.getD j "" := fun h => hx (h ▸ hmem)
      simp only [List.getD_cons_succ, rankOf, if_neg hne, ih hnd' j hj']
      rfl

lemma getD_reconstruct (s : String) (d : Char) (vocab : List String)
    (slope intercept : ℝ) (i : ℕ) (hi : i < vocab.length) :
    (reconstruct_expression_from_cell_sentence s d vocab slope intercept).getD i 0
      = geneValue (sentenceGenes s d) slope intercept (vocab.getD i "") := by
  have hlen : i < (reconstruct_expression_from_cell_sentence s d vocab slope intercept).length := by
    rw [length_reconstruct]; exact hi
  rw [List.getD_eq_getElem _ _ hlen, List.getD_eq_getElem _ _ hi]
  simp [reconstruct_expression_from_cell_sentence]

lemma geneValue_nonneg (genes : List String) (slope intercept : ℝ) (g : String) :
    0 ≤ geneValue genes slope intercept g := by
  unfold geneValue
  cases rankOf genes g with
  | none => exact le_refl 0
  | some r => exact le_max_left 0 _

/-- Shared entry-value lemma: under a duplicate-free sentence, the output
entry at a vocabulary index holding the gene of rank `r` equals the clamped
linear-model prediction at rank `r`. -/
lemma reconstruct_entry_eq (s : String) (d : Char) (vocab : List String)
    (slope intercept : ℝ) (hnd : (sentenceGenes s d).Nodup)
    (r : ℕ) (hr1 : 1 ≤ r) (hr2 : r ≤ (sentenceGenes s d).length)
    (i : ℕ) (hi : i < vocab.length)
    (hg : vocab.getD i "" = (sentenceGenes s d).getD (r - 1) "") :
    (reconstruct_expression_from_cell_sentence s d vocab slope intercept).getD i 0
      = max 0 (intercept + slope * Real.log r) := by
  rw [getD_reconstruct s d vocab slope intercept i hi, hg]
  have hj : r - 1 < (sentenceGenes s d).length := by omega
  have hrank := rankOf_getD_nodup (sentenceGenes s d) hnd (r - 1) hj
  have hr : r - 1 + 1 = r := by omega
  rw [hr] at hrank
  unfold geneValue
  rw [hrank]

/- ## C10: the base change is exactly the change of logarithm base -/

/-- C10: dividing by ln(10) is the change of logarithm base: for every
count x ≥ 0, ln(1+x)/ln(10) = log10(1+x); the step maps zero to zero; and it
makes an entry negative exactly when the entry was already negative, so the
subsequent clamp only affects entries negative before the division. -/
theorem baseChange_is_logb :
    (∀ x : ℝ, 0 ≤ x → baseChange (Real.log (1 + x)) = Real.logb 10 (1 + x)) ∧
    baseChange 0 = 0 ∧
    (∀ y : ℝ, baseChange y < 0 ↔ y < 0) := by
  have hlog10 : (0:ℝ) < Real.log 10 := Real.log_pos (by norm_num)
  refine ⟨fun x _ => ?_, ?_, fun y => ?_⟩
  · unfold baseChange
    exact Real.log_div_log
  · unfold baseChange
    exact zero_div _
  · unfold baseChange
    constructor
    · intro h
      by_contra hy
      push_neg at hy
      exact absurd (div_nonneg hy hlog10.le) (not_le.mpr h)
    · intro h
      exact div_neg_of_neg_of_pos h hlog10

/- ## C8: no negative entries after the clamp, preserved by reconstruction -/

/-- C8: after the log-base change followed by the explicit clamp, every
entry of the expression matrix is ≥ 0, and the reconstruction step likewise
never produces a negative entry. -/
theorem clamp_nonneg_invariant (M : List (List ℝ)) (s : String) (d : Char)
    (vocab : List String) (slope intercept : ℝ) :
    (∀ row ∈ clampMatrix (baseChangeMatrix M), ∀ x ∈ row, 0 ≤ x) ∧
    (∀ x ∈ reconstruct_expression_from_cell_sentence s d vocab slope intercept,
      0 ≤ x) := by
  constructor
  · intro row hrow x hx
    simp only [clampMatrix, List.mem_map] at hrow
    obtain ⟨row', _, hrow'⟩ := hrow
    subst hrow'
    simp only [List.mem_map] at hx
    obtain ⟨y, _, hy⟩ := hx
    subst hy
    unfold clampNeg
    split
    · exact le_refl 0
    · exact le_of_not_lt (by assumption)
  · intro x hx
    simp only [reconstruct_expression_from_cell_sentence, List.mem_map] at hx
    obtain ⟨g, _, hg⟩ := hx
    subst hg
    exact geneValue_nonneg _ _ _ _

lemma geneValue_of_rank (genes : List String) (slope intercept : ℝ) (g : String)
    (r : ℕ) (h : rankOf genes g = some r) :
    geneValue genes slope intercept g = max 0 (intercept + slope * Real.log r) := by
  unfold geneValue
  rw [h]

lemma geneValue_of_absent (genes : List String) (slope intercept : ℝ) (g : String)
    (h : g ∉ genes) : geneValue genes slope intercept g = 0 := by
  unfold geneValue
  rw [(rankOf_eq_none_iff genes g).mpr h]

/- ## C1: the value assigned at rank r is the clamped linear prediction -/

/-- C1: for every cell sentence (a duplicate-free ordered gene list),
delimiter, vocabulary, slope and intercept, the gene at 1-indexed position r
of the sentence receives the value intercept + slope * ln(r), clamped to
zero when negative, for every position r from 1 to the sentence length. -/
theorem reconstruct_rank_formula (s : String) (d : Char) (vocab : List String)
    (slope intercept : ℝ) (hnd : (sentenceGenes s d).Nodup)
    (r : ℕ) (hr1 : 1 ≤ r) (hr2 : r ≤ (sentenceGenes s d).length)
    (i : ℕ) (hi : i < vocab.length)
    (hg : vocab.getD i "" = (sentenceGenes s d).getD (r - 1) "") :
    (reconstruct_expression_from_cell_sentence s d vocab slope intercept).getD i 0
      = max 0 (intercept + slope * Real.log r) :=
  reconstruct_entry_eq s d vocab slope intercept hnd r hr1 hr2 i hi hg

/-- Witness for C1 at a concrete input: sentence "g1 g2", rank 2,
vocabulary slot 1. -/
theorem reconstruct_rank_formula_witness :
    (sentenceGenes "g1 g2" ' ').Nodup ∧
    (reconstruct_expression_from_cell_sentence "g1 g2" ' ' ["g1", "g2"] (-1) 2).getD 1 0
      = max 0 (2 + (-1) * Real.log ((2:ℕ) : ℝ)) :=
  ⟨by decide,
    reconstruct_rank_formula "g1 g2" ' ' ["g1", "g2"] (-1) 2 (by decide)
      2 (by decide) (by decide) 1 (by decide) (by decide)⟩

/- ## C2: vocabulary-length output, absent genes receive exactly 0 -/

/-- C2: the reconstruction returns a dense vector of length |vocabulary|
indexed in vocabulary order, and every vocabulary gene not in the sentence
receives exactly 0. -/
theorem reconstruct_length_and_absent_zero (s : String) (d : Char)
    (vocab : List String) (slope intercept : ℝ) :
    (reconstruct_expression_from_cell_sentence s d vocab slope intercept).length
      = vocab.length ∧
    ∀ i, i < vocab.length → vocab.getD i "" ∉ sentenceGenes s d →
      (reconstruct_expression_from_cell_sentence s d vocab slope intercept).getD i 0
        = 0 := by
  refine ⟨length_reconstruct s d vocab slope intercept, fun i hi habs => ?_⟩
  rw [getD_reconstruct s d vocab slope intercept i hi]
  exact geneValue_of_absent _ slope intercept _ habs

/-- Witness for C2 at a concrete input. -/
theorem reconstruct_length_and_absent_zero_witness :
    (reconstruct_expression_from_cell_sentence "g1" ' ' ["g1", "g2"] (-1) 2).length
      = 2 ∧
    ∀ i, i < (["g1", "g2"] : List String).length →
      (["g1", "g2"] : List String).getD i "" ∉ sentenceGenes "g1" ' ' →
      (reconstruct_expression_from_cell_sentence "g1" ' ' ["g1", "g2"] (-1) 2).getD i 0
        = 0 :=
  reconstruct_length_and_absent_zero "g1" ' ' ["g1", "g2"] (-1) 2

/- ## C4: values are non-increasing in rank when the slope is negative -/

/-- C4: with a negative slope and a duplicate-free sentence, the value
assigned to the gene at rank r1 is ≥ the value assigned to the gene at rank
r2 whenever r1 < r2. -/
theorem reconstruct_monotone_rank (s : String) (d : Char) (vocab : List String)
    (slope intercept : ℝ) (hslope : slope < 0)
    (hnd : (sentenceGenes s d).Nodup)
    (r1 r2 : ℕ) (hr1 : 1 ≤ r1) (h12 : r1 < r2)
    (hr2 : r2 ≤ (sentenceGenes s d).length)
    (i1 i2 : ℕ) (hi1 : i1 < vocab.length) (hi2 : i2 < vocab.length)
    (hg1 : vocab.getD i1 "" = (sentenceGenes s d).getD (r1 - 1) "")
    (hg2 : vocab.getD i2 "" = (sentenceGenes s d).getD (r2 - 1) "") :
    (reconstruct_expression_from_cell_sentence s d vocab slope intercept).getD i2 0
      ≤ (reconstruct_expression_from_cell_sentence s d vocab slope intercept).getD i1 0 := by
  rw [reconstruct_entry_eq s d vocab slope intercept hnd r1 hr1 (by omega) i1 hi1 hg1,
    reconstruct_entry_eq s d vocab slope intercept hnd r2 (by omega) hr2 i2 hi2 hg2]
  refine max_le_max le_rfl ?_
  have hle : Real.log r1 ≤ Real.log r2 := by
    refine Real.log_le_log ?_ ?_
    · exact_mod_cast hr1
    · exact_mod_cast h12.le
  have := mul_le_mul_of_nonpos_left hle hslope.le
  linarith

/-- Witness for C4 at a concrete input: ranks 1 and 2 of sentence "g1 g2",
slope -1. -/
theorem reconstruct_monotone_rank_witness :
    ((-1 : ℝ) < 0) ∧
    (reconstruct_expression_from_cell_sentence "g1 g2" ' ' ["g1", "g2"] (-1) 2).getD 1 0
      ≤ (reconstruct_expression_from_cell_sentence "g1 g2" ' ' ["g1", "g2"] (-1) 2).getD 0 0 :=
  ⟨by norm_num,
    reconstruct_monotone_rank "g1 g2" ' ' ["g1", "g2"] (-1) 2 (by norm_num)
      (by decide) 1 2 (by decide) (by decide) (by decide)
      0 1 (by decide) (by decide) (by decide) (by decide)⟩

/- ## C6: the empty cell sentence reconstructs to the all-zero vector -/

/-- C6: for every vocabulary, slope and intercept, reconstructing the empty
cell sentence yields the all-zero vector of length |vocabulary|. -/
theorem reconstruct_empty_sentence (d : Char) (vocab : List String)
    (slope intercept : ℝ) :
    reconstruct_expression_from_cell_sentence "" d vocab slope intercept
      = List.replicate vocab.length 0 := by
  refine List.eq_replicate_iff.mpr ⟨length_reconstruct "" d vocab slope intercept, ?_⟩
  intro b hb
  simp only [reconstruct_expression_from_cell_sentence, List.mem_map] at hb
  obtain ⟨g, _, hg⟩ := hb
  subst hg
  have : sentenceGenes "" d = [] := rfl
  rw [this]
  exact geneValue_of_absent [] slope intercept g (by simp)

/- ## C7: out-of-vocabulary genes in the sentence do not make the
reconstruction fail -/

/-- C7: for every cell sentence containing a gene absent from the
vocabulary, the reconstruction still returns a result — a dense vector of
length |vocabulary| — rather than failing (the model is a total function;
the out-of-vocabulary gene simply has no slot in the output). -/
theorem reconstruct_total_on_oov (s : String) (d : Char) (vocab : List String)
    (slope intercept : ℝ)
    (hoov : ∃ g ∈ sentenceGenes s d, g ∉ vocab) :
    (reconstruct_expression_from_cell_sentence s d vocab slope intercept).length
      = vocab.length :=
  length_reconstruct s d vocab slope intercept

/-- Witness for C7 at a concrete input: sentence "gX g1" contains "gX",
absent from the vocabulary ["g1"]. -/
theorem reconstruct_total_on_oov_witness :
    (∃ g ∈ sentenceGenes "gX g1" ' ', g ∉ (["g1"] : List String)) ∧
    (reconstruct_expression_from_cell_sentence "gX g1" ' ' ["g1"] (-1) 2).length = 1 :=
  ⟨by decide, reconstruct_total_on_oov "gX g1" ' ' ["g1"] (-1) 2 (by decide)⟩

/- ## C5: the spec's concrete round-trip example -/

/-- C5: for the 5-gene vocabulary g1..g5, the sentence "g1 g2 g3" with
space delimiter, slope = -1 and intercept = 2, the reconstruction yields
g1 = 2.0, g2 = 2 - ln 2, g3 = 2 - ln 3, g4 = 0, g5 = 0. -/
theorem reconstruct_example_five_genes :
    reconstruct_expression_from_cell_sentence "g1 g2 g3" ' '
        ["g1", "g2", "g3", "g4", "g5"] (-1) 2
      = [2, 2 - Real.log 2, 2 - Real.log 3, 0, 0] := by
  have hgenes : sentenceGenes "g1 g2 g3" ' ' = ["g1", "g2", "g3"] := by decide
  have h1 : rankOf ["g1", "g2", "g3"] "g1" = some 1 := by decide
  have h2 : rankOf ["g1", "g2", "g3"] "g2" = some 2 := by decide
  have h3 : rankOf ["g1", "g2", "g3"] "g3" = some 3 := by decide
  have h4 : ("g4" : String) ∉ (["g1", "g2", "g3"] : List String) := by decide
  have h5 : ("g5" : String) ∉ (["g1", "g2", "g3"] : List String) := by decide
  have hlog2 : Real.log 2 ≤ 1 := by
    have := Real.log_le_sub_one_of_pos (x := (2:ℝ)) (by norm_num)
    linarith
  have hlog3 : Real.log 3 ≤ 2 := by
    have := Real.log_le_sub_one_of_pos (x := (3:ℝ)) (by norm_num)
    linarith
  have e1 : max (0:ℝ) (2 + (-1) * Real.log ((1:ℕ) : ℝ)) = 2 := by
    rw [Nat.cast_one, Real.log_one]
    norm_num
  have e2 : max (0:ℝ) (2 + (-1) * Real.log ((2:ℕ) : ℝ)) = 2 - Real.log 2 := by
    have hc : ((2:ℕ) : ℝ) = 2 := by norm_num
    rw [hc, max_eq_right (by linarith)]
    ring
  have e3 : max (0:ℝ) (2 + (-1) * Real.log ((3:ℕ) : ℝ)) = 2 - Real.log 3 := by
    have hc : ((3:ℕ) : ℝ) = 3 := by norm_num
    rw [hc, max_eq_right (by linarith)]
    ring
  simp only [reconstruct_expression_from_cell_sentence, hgenes, List.map_cons,
    List.map_nil, geneValue_of_rank _ _ _ _ _ h1, geneValue_of_rank _ _ _ _ _ h2,
    geneValue_of_rank _ _ _ _ _ h3, geneValue_of_absent _ _ _ _ h4,
    geneValue_of_absent _ _ _ _ h5, e1, e2, e3]

/- ## C3: support size of the reconstructed vector -/

lemma rankOf_isSome_of_mem (l : List String) (g : String) (h : g ∈ l) :
    ∃ r, rankOf l g = some r := by
  cases hr : rankOf l g with
  | none => exact absurd ((rankOf_eq_none_iff l g).mp hr) (not_not.mpr h)
  | some r => exact ⟨r, rfl⟩

lemma countP_mem_of_nodup_sub (vocab genes : List String) (hvnd : vocab.Nodup)
    (hgnd : genes.Nodup) (hsub : ∀ g ∈ genes, g ∈ vocab) :
    vocab.countP (fun g => decide (g ∈ genes)) = genes.length := by
  rw [List.countP_eq_length_filter]
  have hfnd : (vocab.filter (fun g => decide (g ∈ genes))).Nodup :=
    hvnd.filter _
  rw [← List.toFinset_card_of_nodup hfnd, ← List.toFinset_card_of_nodup hgnd]
  congr 1
  rw [List.toFinset_filter]
  ext a
  simp only [Finset.mem_filter, List.mem_toFinset, decide_eq_true_eq]
  exact ⟨fun h => h.2, fun h => ⟨hsub a h, h⟩⟩

/-- Complementary count: the genes of the vocabulary outside the sentence
and those inside it together exhaust the vocabulary. -/
lemma countP_mem_add_countP_not_mem (vocab genes : List String) :
    vocab.countP (fun g => decide (g ∈ genes))
      + vocab.countP (fun g => !decide (g ∈ genes)) = vocab.length := by
  induction vocab with
  | nil => simp
  | cons x xs ih =>
    by_cases hx : x ∈ genes <;> simp [List.countP_cons, hx] <;> omega

/-- C3: for a vocabulary of size N and a sentence listing k distinct
vocabulary genes at ranks 1..k, if intercept + slope * ln(r) > 0 for every
rank r ≤ k, then the reconstructed vector has exactly k nonzero entries and
N - k zero entries. -/
theorem reconstruct_support_count (s : String) (d : Char) (vocab : List String)
    (slope intercept : ℝ)
    (hvnd : vocab.Nodup) (hnd : (sentenceGenes s d).Nodup)
    (hsub : ∀ g ∈ sentenceGenes s d, g ∈ vocab)
    (hpos : ∀ r : ℕ, 1 ≤ r → r ≤ (sentenceGenes s d).length →
      0 < intercept + slope * Real.log r) :
    (reconstruct_expression_from_cell_sentence s d vocab slope intercept).countP
        (fun x => decide (x ≠ 0)) = (sentenceGenes s d).length ∧
    (reconstruct_expression_from_cell_sentence s d vocab slope intercept).countP
        (fun x => decide (x = 0))
      = vocab.length - (sentenceGenes s d).length := by
  set genes := sentenceGenes s d with hgenes
  have hvalpos : ∀ g ∈ genes, 0 < geneValue genes slope intercept g := by
    intro g hmem
    obtain ⟨r, hr⟩ := rankOf_isSome_of_mem genes g hmem
    obtain ⟨hr1, hr2⟩ := rankOf_bounds genes g r hr
    have hv := hpos r hr1 hr2
    rw [geneValue_of_rank genes slope intercept g r hr, max_eq_right hv.le]
    exact hv
  have hcount1 :
      (reconstruct_expression_from_cell_sentence s d vocab slope intercept).countP
        (fun x => decide (x ≠ 0)) = genes.length := by
    rw [reconstruct_expression_from_cell_sentence, List.countP_map, ← hgenes]
    have hc : vocab.countP
          ((fun x : ℝ => decide (x ≠ 0)) ∘ geneValue genes slope intercept)
        = vocab.countP (fun g => decide (g ∈ genes)) := by
      refine List.countP_congr fun g _ => ?_
      simp only [Function.comp_apply, decide_eq_true_eq]
      by_cases hmem : g ∈ genes
      · simp only [hmem, iff_true]
        exact (hvalpos g hmem).ne'
      · simp [geneValue_of_absent genes slope intercept g hmem, hmem]
    rw [hc]
    exact countP_mem_of_nodup_sub vocab genes hvnd hnd hsub
  have hcount0 :
      (reconstruct_expression_from_cell_sentence s d vocab slope intercept).countP
        (fun x => decide (x = 0))
      = vocab.countP (fun g => !decide (g ∈ genes)) := by
    rw [reconstruct_expression_from_cell_sentence, List.countP_map, ← hgenes]
    refine List.countP_congr fun g _ => ?_
    simp only [Function.comp_apply, decide_eq_true_eq, Bool.not_eq_true',
      decide_eq_false_iff_not]
    by_cases hmem : g ∈ genes
    · simp [hmem, (hvalpos g hmem).ne']
    · simp [geneValue_of_absent genes slope intercept g hmem, hmem]
  have hin := countP_mem_of_nodup_sub vocab genes hvnd hnd hsub
  have hsplit := countP_mem_add_countP_not_mem vocab genes
  refine ⟨hcount1, ?_⟩
  rw [hcount0]
  omega

/-- Witness for C3 at a concrete input: vocabulary of 3 genes, sentence
"g1 g2", slope -1, intercept 2. -/
theorem reconstruct_support_count_witness :
    (reconstruct_expression_from_cell_sentence "g1 g2" ' ' ["g1", "g2", "g3"]
        (-1) 2).countP (fun x => decide (x ≠ 0)) = 2 ∧
    (reconstruct_expression_from_cell_sentence "g1 g2" ' ' ["g1", "g2", "g3"]
        (-1) 2).countP (fun x => decide (x = 0)) = 1 :=
  reconstruct_support_count "g1 g2" ' ' ["g1", "g2", "g3"] (-1) 2
    (by decide) (by decide) (by decide)
    (by
      intro r h1 h2
      have hlen : (sentenceGenes "g1 g2" ' ').length = 2 := by decide
      rw [hlen] at h2
      interval_cases r
      · norm_num [Real.log_one]
      · have hlog2 : Real.log 2 ≤ 1 := by
          have := Real.log_le_sub_one_of_pos (x := (2:ℝ)) (by norm_num)
          linarith
        have hc : ((2:ℕ) : ℝ) = 2 := by norm_num
        rw [hc]
        linarith)

/- ## C9: the companion OLS fit recovers exact log-linear data -/

/- The fitting step runs inside `benchmark_expression_conversion` of the
external `cell2sentence` library; the spec describes it as "ordinary least
squares of expression on ln(rank) over a sample of cells, producing
(slope, intercept) and diagnostic goodness-of-fit (R^2)".  The definitions
below are modelled from that description. -/

/-- Modelled from the spec: sum of the regressor values of a sample. -/

noncomputable def sumX (pts : List (ℝ × ℝ)) : ℝ := (pts.map Prod.fst).sum

/-- Modelled from the spec: sum of the response values of a sample. -/
noncomputable def sumY (pts : List (ℝ × ℝ)) : ℝ := (pts.map Prod.snd).sum

/-- Modelled from the spec: sum of squared regressor values. -/
noncomputable def sumXX (pts : List (ℝ × ℝ)) : ℝ := (pts.map fun p => p.1 * p.1).sum

/-- Modelled from the spec: sum of regressor-response products. -/
noncomputable def sumXY (pts : List (ℝ × ℝ)) : ℝ := (pts.map fun p => p.1 * p.2).sum

/-- Modelled from the spec: the ordinary-least-squares slope of the
regression of expression on ln(rank). -/
noncomputable def olsSlope (pts : List (ℝ × ℝ)) : ℝ :=
  ((pts.length : ℝ) * sumXY pts - sumX pts * sumY pts)
    / ((pts.length : ℝ) * sumXX pts - sumX pts * sumX pts)

/-- Modelled from the spec: the ordinary-least-squares intercept. -/
noncomputable def olsIntercept (pts : List (ℝ × ℝ)) : ℝ :=
  (sumY pts - olsSlope pts * sumX pts) / (pts.length : ℝ)

/-- Modelled from the spec: residual sum of squares of the fitted line. -/
noncomputable def ssRes (pts : List (ℝ × ℝ)) : ℝ :=
  (pts.map fun p => (p.2 - (olsIntercept pts + olsSlope pts * p.1))^2).sum

/-- Modelled from the spec: total sum of squares about the mean response. -/
noncomputable def ssTot (pts : List (ℝ × ℝ)) : ℝ :=
  (pts.map fun p => (p.2 - sumY pts / (pts.length : ℝ))^2).sum

/-- Modelled from the spec: the coefficient of determination R^2 of the
fit, defined as 1 - SSres / SStot. -/
noncomputable def rSquared (pts : List (ℝ × ℝ)) : ℝ := 1 - ssRes pts / ssTot pts

/-- A synthetic dataset in which the expression of the gene at each listed
rank is exactly a - b * ln(rank): the sample of (ln rank, expression)
pairs handed to the fit. -/
noncomputable def syntheticData (ranks : List ℕ) (a b : ℝ) : List (ℝ × ℝ) :=
  ranks.map fun r : ℕ => (Real.log (r : ℝ), a - b * Real.log (r : ℝ))

lemma length_synthetic (ranks : List ℕ) (a b : ℝ) :
    (syntheticData ranks a b).length = ranks.length := by
  simp [syntheticData]

lemma sumX_synthetic (ranks : List ℕ) (a b : ℝ) :
    sumX (syntheticData ranks a b) = (ranks.map fun r : ℕ => Real.log r).sum := by
  induction ranks with
  | nil => simp [syntheticData, sumX]
  | cons r rs ih =>
    simp only [syntheticData, sumX, List.map_cons, List.sum_cons] at ih ⊢
    rw [ih]

lemma sumY_synthetic (ranks : List ℕ) (a b : ℝ) :
    sumY (syntheticData ranks a b)
      = a * ranks.length - b * (ranks.map fun r : ℕ => Real.log r).sum := by
  induction ranks with
  | nil => simp [syntheticData, sumY]
  | cons r rs ih =>
    simp only [syntheticData, sumY, List.map_cons, List.sum_cons,
      List.length_cons] at ih ⊢
    rw [ih]
    push_cast
    ring

lemma sumXX_synthetic (ranks : List ℕ) (a b : ℝ) :
    sumXX (syntheticData ranks a b)
      = (ranks.map fun r : ℕ => Real.log r * Real.log r).sum := by
  induction ranks with
  | nil => simp [syntheticData, sumXX]
  | cons r rs ih =>
    simp only [syntheticData, sumXX, List.map_cons, List.sum_cons] at ih ⊢
    rw [ih]

lemma sumXY_synthetic (ranks : List ℕ) (a b : ℝ) :
    sumXY (syntheticData ranks a b)
      = a * (ranks.map fun r : ℕ => Real.log r).sum
        - b * (ranks.map fun r : ℕ => Real.log r * Real.log r).sum := by
  induction ranks with
  | nil => simp [syntheticData, sumXY]
  | cons r rs ih =>
    simp only [syntheticData, sumXY, List.map_cons, List.sum_cons] at ih ⊢
    rw [ih]
    ring

/-- C9: on a synthetic dataset whose expression is exactly a - b*ln(rank),
the OLS fit of expression on ln(rank) recovers slope = -b and intercept = a
with R^2 = 1, whenever the design is non-degenerate (nonzero OLS
denominator). -/
theorem ols_recovers_synthetic (ranks : List ℕ) (a b : ℝ)
    (hd : ((syntheticData ranks a b).length : ℝ) * sumXX (syntheticData ranks a b)
        - sumX (syntheticData ranks a b) * sumX (syntheticData ranks a b) ≠ 0) :
    olsSlope (syntheticData ranks a b) = -b ∧
    olsIntercept (syntheticData ranks a b) = a ∧
    rSquared (syntheticData ranks a b) = 1 := by
  set pts := syntheticData ranks a b with hpts
  set S1 := (ranks.map fun r : ℕ => Real.log r).sum with hS1
  set S2 := (ranks.map fun r : ℕ => Real.log r * Real.log r).sum with hS2
  have hlen : (pts.length : ℝ) = (ranks.length : ℝ) := by
    rw [hpts, length_synthetic]
  have hX : sumX pts = S1 := sumX_synthetic ranks a b
  have hY : sumY pts = a * ranks.length - b * S1 := sumY_synthetic ranks a b
  have hXX : sumXX pts = S2 := sumXX_synthetic ranks a b
  have hXY : sumXY pts = a * S1 - b * S2 := sumXY_synthetic ranks a b
  have hd' : (ranks.length : ℝ) * S2 - S1 * S1 ≠ 0 := by
    rw [hlen, hX, hXX] at hd
    exact hd
  have hne : ranks ≠ [] := by
    rintro rfl
    apply hd'
    simp [hS1, hS2]
  have hn : (ranks.length : ℝ) ≠ 0 := by
    simp only [ne_eq, Nat.cast_eq_zero, List.length_eq_zero]
    exact hne
  -- slope
  have hslope : olsSlope pts = -b := by
    rw [olsSlope, hlen, hX, hY, hXX, hXY]
    have hnum : (ranks.length : ℝ) * (a * S1 - b * S2)
        - S1 * (a * ranks.length - b * S1)
        = -b * ((ranks.length : ℝ) * S2 - S1 * S1) := by ring
    rw [hnum, mul_div_assoc, div_self hd', mul_one]
  -- intercept
  have hint : olsIntercept pts = a := by
    rw [olsIntercept, hslope, hlen, hX, hY]
    have : a * (ranks.length : ℝ) - b * S1 - -b * S1 = a * (ranks.length : ℝ) := by
      ring
    rw [this, mul_div_assoc, div_self hn, mul_one]
  -- residual sum of squares vanishes
  have hres : ssRes pts = 0 := by
    rw [ssRes, hint, hslope, hpts, syntheticData, List.map_map]
    have hfn : ((fun p : ℝ × ℝ => (p.2 - (a + -b * p.1))^2)
        ∘ fun r : ℕ => (Real.log (r : ℝ), a - b * Real.log (r : ℝ))) = fun _ : ℕ => (0:ℝ) := by
      funext r
      simp only [Function.comp_apply]
      ring
    rw [hfn]
    simp
  refine ⟨hslope, hint, ?_⟩
  rw [rSquared, hres]
  simp

/-- Witness for C9 at a concrete input: ranks 1 and 2, a = 5, b = 1. -/
theorem ols_recovers_synthetic_witness :
    olsSlope (syntheticData [1, 2] 5 1) = -1 ∧
    olsIntercept (syntheticData [1, 2] 5 1) = 5 ∧
    rSquared (syntheticData [1, 2] 5 1) = 1 :=
  ols_recovers_synthetic [1, 2] 5 1 (by
    have h2 : 0 < Real.log 2 := Real.log_pos (by norm_num)
    simp only [syntheticData, sumXX, sumX, List.map_cons, List.map_nil,
      List.sum_cons, List.sum_nil, List.length_cons, List.length_nil]
    push_cast
    simp only [Real.log_one]
    intro h
    nlinarith)
